import Mathlib

/-!
Verification development for the injury status tracker.

The repository stores a per-subject, per-day status log in a CSV blob.
The core pieces embedded here, translated from the JavaScript sources:

* the log codec (`parseInjuryLog` from src/scripts/update-log.js and its
  variant in src/functions/injury-log.js, plus the encoder used by both
  writers),
* the carry-forward engine (`main` of src/scripts/update-log.js),
* the maintenance operations (`updateLog`, `batchUpdateLog`,
  `deletePlayer` handlers of src/functions/injury-log.js),
* the configuration parser (`parseAppConfig` of src/functions/injury-log.js),
* a compare-and-swap storage adapter modelled from the specification
  (the adapter itself is the GitHub contents API, external to the repo).

JavaScript strings are Lean `String`; `str.split(c)` for a one-character
separator and `arr.join(c)` are modelled through `List.splitOn` and
`List.intercalate` on the character lists.  JavaScript records may carry
`undefined` fields, modelled as `none : Option String`.  A JavaScript
object used as a dictionary is an insertion-ordered association list whose
keys are distinct; property read and property assignment are `objGet` and
`objSet`.
-/

set_option maxRecDepth 8192

namespace InjuryTracker

/-- JavaScript `str.split(sep)` for a one-character separator: the string is
cut at every occurrence of the separator, keeping empty pieces. -/
def jsSplit (sep : Char) (s : String) : List String :=
  (s.toList.splitOn sep).map List.asString

/-- JavaScript `arr.join(sep)` for a one-character separator. -/
def jsJoin (sep : Char) (xs : List String) : String :=
  (List.intercalate [sep] (xs.map String.toList)).asString

/-- A line is blank when every character is whitespace; the parsers drop such
lines with `filter(line => line.trim())`. -/
def isBlank (s : String) : Bool := s.toList.all (fun c => c.isWhitespace)

/-- JavaScript `str.trim()`: strip whitespace from both ends, modelled on the
character list. -/
def jsTrim (s : String) : String :=
  ((s.toList.dropWhile Char.isWhitespace).reverse.dropWhile
    Char.isWhitespace).reverse.asString

/-- In-memory status record.  A field holds `none` where the JavaScript value
is `undefined` (destructuring a short CSV line, or the carry-forward default
which only sets `status`). -/
structure StatusRecord where
  status : Option String
  injurySite : Option String
  injury : Option String
  severity : Option String
  comment : Option String
deriving DecidableEq, Repr

/-- The in-memory injury log: a JavaScript object keyed by the composite
`subject-date` key, modelled as an insertion-ordered association list. -/
abbrev Log := List (String × StatusRecord)

/-- JavaScript property read `obj[k]`: `none` when the key is absent. -/
def objGet {α : Type} : List (String × α) → String → Option α
  | [], _ => none
  | p :: rest, k => if p.1 == k then some p.2 else objGet rest k

/-- JavaScript property assignment `obj[k] = v` on a dictionary object: an
existing key keeps its position and gets the new value, a new key is appended.
Objects built by these sources never hold a key twice. -/
def objSet {α : Type} : List (String × α) → String → α → List (String × α)
  | [], k, v => [(k, v)]
  | p :: rest, k, v => if p.1 == k then (k, v) :: rest else p :: objSet rest k v

/-- Record built in src/scripts/update-log.js from
`const [key, status, injurySite, injury, severity, comment] = line.split(',')`
followed by `{ status, injurySite, injury, severity, comment: comment || '' }`:
absent positions destructure to `undefined`, and only the comment is then
defaulted to the empty string. -/
def mkRecord (fields : List String) : StatusRecord :=
  { status := fields[1]?
    injurySite := fields[2]?
    injury := fields[3]?
    severity := fields[4]?
    comment := some ((fields[5]?).getD "") }

/-- Record built in src/functions/injury-log.js: identical except the comment
is also trimmed, `comment: (comment || '').trim()`. -/
def mkRecordTrim (fields : List String) : StatusRecord :=
  { status := fields[1]?
    injurySite := fields[2]?
    injury := fields[3]?
    severity := fields[4]?
    comment := some (jsTrim ((fields[5]?).getD "")) }

/-- Body of the per-line loop of both `parseInjuryLog` functions: split the
line on commas, read the key from the first field, and store the record unless
the key is empty (`if (key) log[key] = ...`). -/
def parseLine (mk : List String → StatusRecord) (log : Log) (line : String) : Log :=
  let fields := jsSplit ',' line
  let key := (fields[0]?).getD ""
  if key ≠ "" then objSet log key (mk fields) else log

/-- Shared shape of the two `parseInjuryLog` functions: split into lines, drop
blank lines, return the empty log unless more than one line remains, drop the
header line, then fold each data line into the object. -/
def parseLogWith (mk : List String → StatusRecord) (csvText : String) : Log :=
  let lines := (jsSplit '\n' csvText).filter (fun l => !(isBlank l))
  if lines.length ≤ 1 then []
  else (lines.drop 1).foldl (parseLine mk) []

/-- `parseInjuryLog` from src/scripts/update-log.js. -/
def parseInjuryLog (csvText : String) : Log := parseLogWith mkRecord csvText

/-- `parseInjuryLog` from src/functions/injury-log.js (trims the comment). -/
def parseInjuryLogFn (csvText : String) : Log := parseLogWith mkRecordTrim csvText

/-- One encoded CSV row,
`` `${k},${v.status || ''},${v.injurySite || ''},${v.injury || ''},${v.severity || ''},${v.comment || ''}` ``:
an `undefined` (or empty) field serializes as the empty string. -/
def encodeRow (k : String) (v : StatusRecord) : String :=
  jsJoin ',' [k, v.status.getD "", v.injurySite.getD "", v.injury.getD "",
    v.severity.getD "", v.comment.getD ""]

/-- The fixed CSV header written by every encoder in the sources. -/
def headerLine : String := "key,status,injurySite,injury,severity,comment"

/-- The encoder used by src/scripts/update-log.js and the write handlers of
src/functions/injury-log.js: header line followed by one row per entry in the
object's iteration order, joined with newlines. -/
def encodeLog (log : Log) : String :=
  jsJoin '\n' (headerLine :: log.map (fun p => encodeRow p.1 p.2))

/-- Composite key construction `` `${athlete}-${fmt(date)}` `` where `fmt` is
the date formatter (`toYYYYMMDD` in the sources) and dates are day numbers. -/
def mkKey (athlete : String) (fmt : Int → String) (d : Int) : String :=
  athlete ++ "-" ++ fmt d

/-- Carry-forward default from src/scripts/update-log.js line 69:
`let statusToCarryForward = { status: 'Available' };` — only the status field
is set, the remaining fields are `undefined`. -/
def defaultCarry : StatusRecord :=
  { status := some "Available", injurySite := none, injury := none,
    severity := none, comment := none }

/-- The backward scan of src/scripts/update-log.js:
`for (let i = 0; i < 365; i++)` starting at `asOfDate`, stepping one day back,
returning the first record found and the default after 365 misses.  The fuel
argument counts the remaining iterations. -/
def lookbackAux (fmt : Int → String) (log : Log) (athlete : String) :
    Int → Nat → StatusRecord
  | _, 0 => defaultCarry
  | d, n + 1 =>
    match objGet log (mkKey athlete fmt d) with
    | some r => r
    | none => lookbackAux fmt log athlete (d - 1) n

/-- Body of the per-athlete loop of src/scripts/update-log.js `main`: skip the
athlete when tomorrow's key is already populated, otherwise insert the
carried-forward (or default) record and flag that an update was made. -/
def projectStep (fmt : Int → String) (asOf : Int) (acc : Log × Bool)
    (athlete : String) : Log × Bool :=
  let tomorrowKey := mkKey athlete fmt (asOf + 1)
  match objGet acc.1 tomorrowKey with
  | some _ => acc
  | none => (objSet acc.1 tomorrowKey (lookbackAux fmt acc.1 athlete asOf 365), true)

/-- The carry-forward engine of src/scripts/update-log.js `main`: one pass over
the roster, threading the mutated log and the `updatesMade` flag. -/
def project (fmt : Int → String) (log : Log) (roster : List String)
    (asOf : Int) : Log × Bool :=
  roster.foldl (projectStep fmt asOf) (log, false)

/-- The `updateLog` action of src/functions (single-record update):
`injuryLog[key] = data`. -/
def updateLogOp (log : Log) (key : String) (data : StatusRecord) : Log :=
  objSet log key data

/-- The `batchUpdateLog` action:
`payload.forEach(item => { injuryLog[item.key] = item.data; })`. -/
def batchUpdateLog (log : Log) (payload : List (String × StatusRecord)) : Log :=
  payload.foldl (fun l item => objSet l item.1 item.2) log

/-- JavaScript `key.startsWith(name)`: the characters of `name` form a prefix
of the characters of `key`. -/
def jsStartsWith (key name : String) : Bool :=
  name.toList.isPrefixOf key.toList

/-- Log pruning inside the `deletePlayer` action of src/functions/injury-log.js:
`Object.entries(injuryLog).filter(([key]) => !key.startsWith(name))`. -/
def deleteFromLog (name : String) (log : Log) : Log :=
  log.filter (fun p => !(jsStartsWith p.1 name))

/-- Two-digit zero padding for month and day. -/
def pad2 (n : Nat) : String := if n < 10 then "0" ++ toString n else toString n

/-- Four-digit zero padding for the year. -/
def pad4 (n : Nat) : String :=
  if n < 10 then "000" ++ toString n
  else if n < 100 then "00" ++ toString n
  else if n < 1000 then "0" ++ toString n
  else toString n

/-- Gregorian civil date from a day number (days since 1970-01-01, negative
allowed), the standard days-to-civil conversion used by ECMAScript date
formatting. -/
def civilFromDays (z : Int) : Int × Nat × Nat :=
  let z' := z + 719468
  let era := Int.fdiv z' 146097
  let doe := (z' - era * 146097).toNat
  let yoe := (doe - doe / 1460 + doe / 36524 - doe / 146096) / 365
  let y := (yoe : Int) + era * 400
  let doy := doe - (365 * yoe + yoe / 4 - yoe / 100)
  let mp := (5 * doy + 2) / 153
  let d := doy - (153 * mp + 2) / 5 + 1
  let m := if mp < 10 then mp + 3 else mp - 9
  (if m ≤ 2 then y + 1 else y, m, d)

/-- `toYYYYMMDD` of the sources, `date.toISOString().split('T')[0]`, on day
numbers: the `YYYY-MM-DD` rendering of the civil date. -/
def toYYYYMMDD (z : Int) : String :=
  let c := civilFromDays z
  pad4 c.1.toNat ++ "-" ++ pad2 c.2.1 ++ "-" ++ pad2 c.2.2

/-- A stored blob together with its opaque version token. -/
structure Blob where
  content : String
  version : Nat
deriving DecidableEq, Repr

/-- Modelled from the spec: the Storage Adapter write
`put(path, content, expectedVersion) -> {newVersion} | Conflict` of section 6;
the adapter itself is the GitHub contents API and is external to the
repository, so only its specified compare-and-swap contract is embedded: the
write succeeds and advances the version exactly when the presented token still
matches, and fails with a conflict otherwise. -/
def putBlob (b : Blob) (newContent : String) (expected : Nat) : Except Unit Blob :=
  if expected = b.version then
    Except.ok { content := newContent, version := b.version + 1 }
  else Except.error ()

/-- Content produced by the `batchUpdateLog` handler from the content it
observed at its read: decode, merge the payload, encode. -/
def mergeContent (observedContent : String) (payload : List (String × StatusRecord)) :
    String :=
  encodeLog (batchUpdateLog (parseInjuryLogFn observedContent) payload)

/-- The `batchUpdateLog` handler's commit: it writes the merged content with
`sha: logFile.sha`, the version token observed at the preceding read
(`observed`), against whatever the store holds at write time (`current`).
There is no retry: the single adapter call's outcome is returned as-is. -/
def commitBatch (observed current : Blob) (payload : List (String × StatusRecord)) :
    Except Unit Blob :=
  putBlob current (mergeContent observed.content payload) observed.version

/-- Committed state after a write attempt: a successful write replaces the
blob, a failed write leaves the prior committed blob fully intact. -/
def stateAfter (current : Blob) (result : Except Unit Blob) : Blob :=
  match result with
  | Except.ok b => b
  | Except.error _ => current

/-- First-occurrence deduplication, the effect of `[...new Set(arr)]`. -/
def dedupAux (seen : List String) : List String → List String
  | [] => []
  | x :: xs => if x ∈ seen then dedupAux seen xs else x :: dedupAux (x :: seen) xs

/-- JavaScript `[...new Set(arr)]`. -/
def jsSetDedup (l : List String) : List String := dedupAux [] l

/-- Insertion into a sorted list of strings. -/
def insertSorted (x : String) : List String → List String
  | [] => [x]
  | y :: ys => if x ≤ y then x :: y :: ys else y :: insertSorted x ys

/-- JavaScript `arr.sort()` on strings (lexicographic); the sources sort only
deduplicated lists, for which any sorting algorithm agrees. -/
def jsSort (l : List String) : List String := l.foldr insertSorted []

/-- Property read on the row object that `parseAppConfig` builds with
`headers.forEach((h, i) => obj[h] = values[i])`: the value at the last
occurrence of the header name, `undefined` when the row is short or the
header is absent. -/
def rowObjGet (headers values : List String) (name : String) : Option String :=
  match ((List.range headers.length).filter
      (fun i => headers[i]? == some name)).getLast? with
  | some i => values[i]?
  | none => none

/-- The configuration object served by the `config=true` read. -/
structure AppConfig where
  athletes : List String
  injurySites : List String
  injuries : List String
  severities : List String
  statuses : List String
  colorMap : List (String × String)
deriving DecidableEq, Repr

/-- Catalogue extraction `data.map(item => item.F).filter(Boolean)`:
drop `undefined` and empty values. -/
def catalogue (headers : List String) (rows : List (List String)) (name : String) :
    List String :=
  ((rows.map (fun vs => rowObjGet headers vs name)).filterMap id).filter
    (fun s => s ≠ "")

/-- Non-blank lines of the configuration file. -/
def configLines (csvText : String) : List String :=
  (jsSplit '\n' csvText).filter (fun l => !(isBlank l))

/-- Trimmed header names from the first non-blank line
(`lines.shift()?.split(',').map(h => h.trim()) || []`). -/
def configHeaders (csvText : String) : List String :=
  match configLines csvText with
  | [] => []
  | h :: _ => (jsSplit ',' h).map jsTrim

/-- Trimmed field values of each remaining line. -/
def configRows (csvText : String) : List (List String) :=
  ((configLines csvText).drop 1).map (fun line => (jsSplit ',' line).map jsTrim)

/-- `parseAppConfig` from src/functions/injury-log.js: split lines, drop
blanks, take trimmed headers from the first line, build one row object per
remaining line, and assemble the catalogues; the statuses catalogue
additionally filters out the literal value `Pending`, while the colour map
keeps every row with truthy Status and ColourCode. -/
def parseAppConfig (csvText : String) : AppConfig :=
  let headers := configHeaders csvText
  let rows := configRows csvText
  { athletes := jsSort (jsSetDedup (catalogue headers rows "AthleteName"))
    injurySites := jsSetDedup (catalogue headers rows "InjurySite")
    injuries := jsSetDedup (catalogue headers rows "Injury")
    severities := jsSetDedup (catalogue headers rows "Severity")
    statuses := jsSetDedup ((catalogue headers rows "Status").filter
      (fun s => s ≠ "Pending"))
    colorMap := rows.foldl
      (fun acc vs =>
        match rowObjGet headers vs "Status", rowObjGet headers vs "ColourCode" with
        | some s, some c => if s ≠ "" ∧ c ≠ "" then objSet acc s c else acc
        | _, _ => acc)
      [] }

/-- Sample log entry used to exercise the round-trip law on concrete data. -/
def sampleLog : Log :=
  [("Alice-2024-01-02", ⟨some "Injured", some "Knee", some "ACL", some "High", some "rest"⟩)]

/-- Mapping whose key contains a comma while every field value is comma-free. -/
def commaKeyLog : Log :=
  [("a,b", ⟨some "", some "", some "", some "", some ""⟩)]

/-- A fully populated injury record used in concrete carry-forward runs. -/
def recInj : StatusRecord :=
  ⟨some "Injured", some "Knee", some "ACL", some "High", some "rest"⟩

/-- Log holding one record dated exactly 364 days before day 20000. -/
def log364 : Log := [(mkKey "A" toYYYYMMDD (20000 - 364), recInj)]

/-- Log holding one record dated exactly 365 days before day 20000. -/
def log365 : Log := [(mkKey "A" toYYYYMMDD (20000 - 365), recInj)]

/-- Field lists of three data lines, the first and last sharing a key. -/
def fssEx : List (List String) :=
  [["A-2024-01-01", "Hurt"], ["B-2024-01-01", "Fit"], ["A-2024-01-01", "Available"]]

/-- Configuration file whose Status column holds the value Pending. -/
def cfgEx : String :=
  "AthleteName,InjurySite,Injury,Severity,Status,ColourCode\nAlice,Knee,ACL,High,Pending,#FF0000"

/-! ## Object semantics -/

theorem beqT {a b : String} (h : a = b) : (a == b) = true := beq_iff_eq.mpr h

theorem beqF {a b : String} (h : ¬ a = b) : (a == b) = false :=
  beq_eq_false_iff_ne.mpr h

theorem objGet_objSet {α : Type} (log : List (String × α)) (k : String) (v : α)
    (q : String) :
    objGet (objSet log k v) q = if q = k then some v else objGet log q := by
  induction log with
  | nil =>
    by_cases h : q = k
    · subst h; simp [objSet, objGet]
    · simp [objSet, objGet, h, beqF (fun hh : k = q => h hh.symm)]
  | cons p rest ih =>
    by_cases hpk : p.1 = k
    · rw [objSet, if_pos (beqT hpk)]
      by_cases hqk : q = k
      · subst hqk; simp [objGet]
      · have hpq : ¬ p.1 = q := fun hh => hqk (hh.symm.trans hpk)
        rw [objGet, if_neg (by simp [beqF (fun hh : k = q => hqk hh.symm)])]
        rw [if_neg hqk, objGet, if_neg (by simp [beqF hpq])]
    · rw [objSet, if_neg (by simp [beqF hpk])]
      rw [objGet]
      by_cases hpq : p.1 = q
      · have hqk : ¬ q = k := fun hh => hpk (hpq.trans hh)
        rw [if_pos (beqT hpq), if_neg hqk, objGet, if_pos (beqT hpq)]
      · rw [if_neg (by simp [beqF hpq]), ih]
        by_cases hqk : q = k
        · rw [if_pos hqk, if_pos hqk]
        · rw [if_neg hqk, if_neg hqk, objGet, if_neg (by simp [beqF hpq])]

theorem objGet_append {α : Type} (l₁ l₂ : List (String × α)) (q : String) :
    objGet (l₁ ++ l₂) q = (objGet l₁ q).or (objGet l₂ q) := by
  induction l₁ with
  | nil => simp [objGet]
  | cons p rest ih =>
    by_cases h : p.1 = q <;> simp [objGet, h, ih]

theorem objSet_eq_append {α : Type} (log : List (String × α)) (k : String) (v : α)
    (h : objGet log k = none) : objSet log k v = log ++ [(k, v)] := by
  induction log with
  | nil => simp [objSet]
  | cons p rest ih =>
    by_cases hpk : p.1 = k
    · simp [objGet, hpk] at h
    · rw [objGet, if_neg (by simpa using hpk)] at h
      simp [objSet, hpk, ih h]

theorem isSome_objGet_objSet {α : Type} (log : List (String × α)) (k q : String)
    (v : α) (h : (objGet log q).isSome = true) :
    (objGet (objSet log k v) q).isSome = true := by
  rw [objGet_objSet]
  by_cases hqk : q = k <;> simp [hqk, h]

theorem mem_keys_objSet {α : Type} (log : List (String × α)) (k q : String) (v : α)
    (h : q ∈ (objSet log k v).map Prod.fst) : q ∈ log.map Prod.fst ∨ q = k := by
  induction log with
  | nil => right; simpa [objSet] using h
  | cons p rest ih =>
    by_cases hpk : p.1 = k
    · rw [objSet, if_pos (beqT hpk), List.map_cons, List.mem_cons] at h
      rcases h with h | h
      · right; exact h
      · left; simp [h]
    · rw [objSet, if_neg (by simp [beqF hpk]), List.map_cons, List.mem_cons] at h
      rcases h with h | h
      · left; simp [h]
      · rcases ih h with h' | h'
        · left; simp [h']
        · right; exact h'

theorem nodup_keys_objSet {α : Type} (log : List (String × α)) (k : String) (v : α)
    (h : (log.map Prod.fst).Nodup) : ((objSet log k v).map Prod.fst).Nodup := by
  induction log with
  | nil => simp [objSet]
  | cons p rest ih =>
    rw [List.map_cons, List.nodup_cons] at h
    by_cases hpk : p.1 = k
    · rw [objSet, if_pos (beqT hpk)]
      rw [List.map_cons, List.nodup_cons]
      exact ⟨hpk ▸ h.1, h.2⟩
    · rw [objSet, if_neg (by simp [beqF hpk])]
      rw [List.map_cons, List.nodup_cons]
      refine ⟨fun hmem => ?_, ih h.2⟩
      rcases mem_keys_objSet rest k p.1 v hmem with h' | h'
      · exact h.1 h'
      · exact hpk h'

/-! ## Carry-forward: presence and idempotence -/

theorem projectStep_presence (fmt : Int → String) (asOf : Int) (acc : Log × Bool)
    (a q : String) (h : (objGet acc.1 q).isSome = true) :
    (objGet (projectStep fmt asOf acc a).1 q).isSome = true := by
  unfold projectStep
  cases hm : objGet acc.1 (mkKey a fmt (asOf + 1)) with
  | some r => simpa [hm] using h
  | none => simpa [hm] using isSome_objGet_objSet acc.1 _ q _ h

theorem foldl_projectStep_presence (fmt : Int → String) (asOf : Int)
    (roster : List String) (acc : Log × Bool) (q : String)
    (h : (objGet acc.1 q).isSome = true) :
    (objGet (roster.foldl (projectStep fmt asOf) acc).1 q).isSome = true := by
  induction roster generalizing acc with
  | nil => simpa using h
  | cons a rest ih =>
    rw [List.foldl_cons]
    exact ih _ (projectStep_presence fmt asOf acc a q h)

theorem projectStep_self_present (fmt : Int → String) (asOf : Int)
    (acc : Log × Bool) (a : String) :
    (objGet (projectStep fmt asOf acc a).1 (mkKey a fmt (asOf + 1))).isSome = true := by
  unfold projectStep
  cases hm : objGet acc.1 (mkKey a fmt (asOf + 1)) with
  | some r => simp [hm]
  | none => simp [hm, objGet_objSet]

theorem foldl_projectStep_all_present (fmt : Int → String) (asOf : Int)
    (roster : List String) (acc : Log × Bool) :
    ∀ a ∈ roster,
      (objGet (roster.foldl (projectStep fmt asOf) acc).1
        (mkKey a fmt (asOf + 1))).isSome = true := by
  induction roster generalizing acc with
  | nil => intro a ha; simp at ha
  | cons b rest ih =>
    intro a ha
    rw [List.foldl_cons]
    rcases List.mem_cons.mp ha with h | h
    · subst h
      exact foldl_projectStep_presence fmt asOf rest _ _
        (projectStep_self_present fmt asOf acc a)
    · exact ih _ a h

theorem foldl_projectStep_skip (fmt : Int → String) (asOf : Int)
    (roster : List String) (log : Log) (b : Bool)
    (h : ∀ a ∈ roster, (objGet log (mkKey a fmt (asOf + 1))).isSome = true) :
    roster.foldl (projectStep fmt asOf) (log, b) = (log, b) := by
  induction roster with
  | nil => rfl
  | cons a rest ih =>
    have hstep : projectStep fmt asOf (log, b) a = (log, b) := by
      unfold projectStep
      rcases Option.isSome_iff_exists.mp (h a (List.mem_cons_self a rest)) with ⟨r, hr⟩
      simp [hr]
    rw [List.foldl_cons, hstep]
    exact ih (fun a ha => h a (List.mem_cons_of_mem _ ha))

/-! ## Lookback characterization -/

theorem lookbackAux_finds (fmt : Int → String) (log : Log) (a : String)
    (r : StatusRecord) :
    ∀ (n fuel : Nat) (d : Int), n < fuel →
      (∀ i : Nat, i < n → objGet log (mkKey a fmt (d - i)) = none) →
      objGet log (mkKey a fmt (d - n)) = some r →
      lookbackAux fmt log a d fuel = r := by
  intro n
  induction n with
  | zero =>
    intro fuel d hf h0 hr
    cases fuel with
    | zero => omega
    | succ m =>
      rw [lookbackAux]
      simp only [Nat.cast_zero, sub_zero] at hr
      simp [hr]
  | succ n ih =>
    intro fuel d hf h0 hr
    cases fuel with
    | zero => omega
    | succ m =>
      have hd : objGet log (mkKey a fmt d) = none := by
        simpa using h0 0 (Nat.succ_pos n)
      rw [lookbackAux, hd]
      refine ih m (d - 1) (by omega) (fun i hi => ?_) ?_
      · have := h0 (i + 1) (by omega)
        have heq : d - ((i : Int) + 1) = d - 1 - i := by ring
        simpa [heq] using this
      · have heq : d - 1 - (n : Int) = d - ((n : Nat) + 1 : Int) := by ring
        rw [heq]
        simpa using hr

theorem lookbackAux_default (fmt : Int → String) (log : Log) (a : String) :
    ∀ (fuel : Nat) (d : Int),
      (∀ i : Nat, i < fuel → objGet log (mkKey a fmt (d - i)) = none) →
      lookbackAux fmt log a d fuel = defaultCarry := by
  intro fuel
  induction fuel with
  | zero => intro d _; rfl
  | succ m ih =>
    intro d h
    have hd : objGet log (mkKey a fmt d) = none := by
      simpa using h 0 (Nat.succ_pos m)
    rw [lookbackAux, hd]
    refine ih (d - 1) (fun i hi => ?_)
    have := h (i + 1) (by omega)
    have heq : d - ((i : Int) + 1) = d - 1 - i := by ring
    simpa [heq] using this

theorem project_single (fmt : Int → String) (log : Log) (a : String) (asOf : Int)
    (htarget : objGet log (mkKey a fmt (asOf + 1)) = none) :
    project fmt log [a] asOf
      = (objSet log (mkKey a fmt (asOf + 1)) (lookbackAux fmt log a asOf 365), true) := by
  unfold project
  rw [List.foldl_cons, List.foldl_nil]
  unfold projectStep
  simp [htarget]

/-! ## Codec: split and join -/

theorem intercalate_cons₂ {α : Type} (s : List α) (a b : List α)
    (t : List (List α)) :
    List.intercalate s (a :: b :: t) = a ++ s ++ List.intercalate s (b :: t) := by
  simp [List.intercalate, List.append_assoc]

theorem jsJoin_toList (sep : Char) (xs : List String) :
    (jsJoin sep xs).toList = List.intercalate [sep] (xs.map String.toList) :=
  List.toList_asString _

theorem jsJoin_singleton (sep : Char) (s : String) : jsJoin sep [s] = s := by
  unfold jsJoin
  rw [List.map_cons, List.map_nil]
  rw [show List.intercalate [sep] [s.toList] = s.toList from by simp [List.intercalate]]
  exact String.asString_toList s

theorem jsSplit_jsJoin (sep : Char) (xs : List String) (hne : xs ≠ [])
    (hsep : ∀ x ∈ xs, sep ∉ x.toList) : jsSplit sep (jsJoin sep xs) = xs := by
  unfold jsSplit jsJoin
  rw [List.toList_asString, List.splitOn_intercalate]
  · rw [List.map_map]
    have hcomp : List.asString ∘ String.toList = id := funext String.asString_toList
    rw [hcomp, List.map_id]
  · intro l hl
    rcases List.mem_map.mp hl with ⟨x, hx, rfl⟩
    exact hsep x hx
  · simpa using hne

theorem jsSplit_eq_single (sep : Char) (s : String) (h : sep ∉ s.toList) :
    jsSplit sep s = [s] := by
  have := jsSplit_jsJoin sep [s] (by simp) (by simpa using h)
  rwa [jsJoin_singleton] at this

theorem mem_toList_jsJoin (sep : Char) (xs : List String) (c : Char)
    (h : c ∈ (jsJoin sep xs).toList) : c = sep ∨ ∃ x ∈ xs, c ∈ x.toList := by
  induction xs with
  | nil =>
    rw [jsJoin_toList] at h
    simp [List.intercalate] at h
  | cons x rest ih =>
    cases rest with
    | nil =>
      rw [jsJoin_singleton] at h
      exact Or.inr ⟨x, by simp, h⟩
    | cons y t =>
      rw [jsJoin_toList, List.map_cons, List.map_cons, intercalate_cons₂] at h
      rcases List.mem_append.mp h with h' | h'
      · rcases List.mem_append.mp h' with h'' | h''
        · exact Or.inr ⟨x, by simp, h''⟩
        · left; simpa using h''
      · rw [← List.map_cons, ← jsJoin_toList] at h'
        rcases ih h' with h'' | ⟨z, hz, hcz⟩
        · exact Or.inl h''
        · exact Or.inr ⟨z, List.mem_cons_of_mem _ hz, hcz⟩

theorem comma_mem_encodeRow (k : String) (v : StatusRecord) :
    ',' ∈ (encodeRow k v).toList := by
  unfold encodeRow
  rw [jsJoin_toList, List.map_cons, List.map_cons, intercalate_cons₂]
  simp

theorem isBlank_encodeRow (k : String) (v : StatusRecord) :
    isBlank (encodeRow k v) = false := by
  unfold isBlank
  cases hall : (encodeRow k v).toList.all (fun c => c.isWhitespace) with
  | false => rfl
  | true =>
    exact absurd (List.all_eq_true.mp hall ',' (comma_mem_encodeRow k v)) (by decide)

/-! ## Codec: decode of encode -/

theorem parseLine_eq (mk : List String → StatusRecord) (log : Log) (line : String) :
    parseLine mk log line =
      if ((jsSplit ',' line)[0]?).getD "" ≠ "" then
        objSet log (((jsSplit ',' line)[0]?).getD "") (mk (jsSplit ',' line))
      else log := rfl

theorem foldl_parseLine_encodeRows (mk : List String → StatusRecord) (m : Log) :
    ∀ acc : Log,
      (∀ p ∈ m,
        (((jsSplit ',' (encodeRow p.1 p.2))[0]?).getD "" = p.1 ∧ p.1 ≠ "" ∧
          mk (jsSplit ',' (encodeRow p.1 p.2)) = p.2)) →
      (∀ p ∈ m, objGet acc p.1 = none) →
      (m.map Prod.fst).Nodup →
      (m.map (fun p => encodeRow p.1 p.2)).foldl (parseLine mk) acc = acc ++ m := by
  induction m with
  | nil => intro acc _ _ _; simp
  | cons p rest ih =>
    intro acc hstep habs hnodup
    obtain ⟨hk0, hkne, hmk⟩ := hstep p (List.mem_cons_self p rest)
    have h1 : parseLine mk acc (encodeRow p.1 p.2) = acc ++ [p] := by
      rw [parseLine_eq, hk0, if_pos hkne, hmk,
        objSet_eq_append acc p.1 p.2 (habs p (List.mem_cons_self p rest))]
    rw [List.map_cons, List.foldl_cons, h1]
    rw [List.map_cons, List.nodup_cons] at hnodup
    have habs' : ∀ q ∈ rest, objGet (acc ++ [p]) q.1 = none := by
      intro q hq
      rw [objGet_append, habs q (List.mem_cons_of_mem _ hq)]
      have hne : ¬ p.1 = q.1 := fun hh =>
        hnodup.1 (hh ▸ List.mem_map_of_mem Prod.fst hq)
      simp [objGet, beqF hne]
    rw [ih (acc ++ [p]) (fun q hq => hstep q (List.mem_cons_of_mem _ hq)) habs' hnodup.2]
    simp

theorem parse_encode_core (mk : List String → StatusRecord) (m : Log)
    (hnl : ∀ p ∈ m, '\n' ∉ (encodeRow p.1 p.2).toList)
    (hstep : ∀ p ∈ m,
      (((jsSplit ',' (encodeRow p.1 p.2))[0]?).getD "" = p.1 ∧ p.1 ≠ "" ∧
        mk (jsSplit ',' (encodeRow p.1 p.2)) = p.2))
    (hnodup : (m.map Prod.fst).Nodup) :
    parseLogWith mk (encodeLog m) = m := by
  cases m with
  | nil =>
    unfold parseLogWith encodeLog
    rw [List.map_nil, jsJoin_singleton, jsSplit_eq_single '\n' headerLine (by decide)]
    rw [show (List.filter (fun l => !(isBlank l)) [headerLine]) = [headerLine] from by decide]
    rw [if_pos (by simp)]
  | cons p rest =>
    unfold parseLogWith encodeLog
    have hsplit :
        jsSplit '\n' (jsJoin '\n'
          (headerLine :: (p :: rest).map (fun q => encodeRow q.1 q.2)))
          = headerLine :: (p :: rest).map (fun q => encodeRow q.1 q.2) := by
      refine jsSplit_jsJoin '\n' _ (by simp) ?_
      intro x hx
      rcases List.mem_cons.mp hx with h | h
      · subst h; decide
      · rcases List.mem_map.mp h with ⟨q, hq, rfl⟩
        exact hnl q hq
    rw [hsplit]
    have hfilter :
        (headerLine :: (p :: rest).map (fun q => encodeRow q.1 q.2)).filter
          (fun l => !(isBlank l))
          = headerLine :: (p :: rest).map (fun q => encodeRow q.1 q.2) := by
      rw [List.filter_eq_self]
      intro x hx
      rcases List.mem_cons.mp hx with h | h
      · subst h; decide
      · rcases List.mem_map.mp h with ⟨q, _, rfl⟩
        rw [isBlank_encodeRow]; rfl
    rw [hfilter]
    rw [if_neg (by simp)]
    rw [List.drop_one, List.tail_cons]
    have := foldl_parseLine_encodeRows mk (p :: rest) [] hstep
      (fun q _ => rfl) hnodup
    rw [this]
    simp

theorem jsSplit_encodeRow (k : String) (v : StatusRecord)
    (hk : ',' ∉ k.toList)
    (h1 : ',' ∉ (v.status.getD "").toList)
    (h2 : ',' ∉ (v.injurySite.getD "").toList)
    (h3 : ',' ∉ (v.injury.getD "").toList)
    (h4 : ',' ∉ (v.severity.getD "").toList)
    (h5 : ',' ∉ (v.comment.getD "").toList) :
    jsSplit ',' (encodeRow k v)
      = [k, v.status.getD "", v.injurySite.getD "", v.injury.getD "",
         v.severity.getD "", v.comment.getD ""] := by
  unfold encodeRow
  refine jsSplit_jsJoin ',' _ (by simp) ?_
  intro x hx
  simp only [List.mem_cons, List.not_mem_nil, or_false] at hx
  rcases hx with rfl | rfl | rfl | rfl | rfl | rfl <;> assumption

theorem nl_not_mem_encodeRow (k : String) (v : StatusRecord)
    (hk : '\n' ∉ k.toList)
    (h1 : '\n' ∉ (v.status.getD "").toList)
    (h2 : '\n' ∉ (v.injurySite.getD "").toList)
    (h3 : '\n' ∉ (v.injury.getD "").toList)
    (h4 : '\n' ∉ (v.severity.getD "").toList)
    (h5 : '\n' ∉ (v.comment.getD "").toList) :
    '\n' ∉ (encodeRow k v).toList := by
  intro hmem
  rcases mem_toList_jsJoin ',' _ '\n' hmem with h | ⟨x, hx, hcx⟩
  · exact absurd h (by decide)
  · simp only [List.mem_cons, List.not_mem_nil, or_false] at hx
    rcases hx with rfl | rfl | rfl | rfl | rfl | rfl <;>
      [exact hk hcx; exact h1 hcx; exact h2 hcx; exact h3 hcx; exact h4 hcx;
        exact h5 hcx]

theorem mkRecord_encodeFields (k : String) (v : StatusRecord)
    (h1 : v.status.isSome = true) (h2 : v.injurySite.isSome = true)
    (h3 : v.injury.isSome = true) (h4 : v.severity.isSome = true)
    (h5 : v.comment.isSome = true) :
    mkRecord [k, v.status.getD "", v.injurySite.getD "", v.injury.getD "",
      v.severity.getD "", v.comment.getD ""] = v := by
  cases v with
  | mk st si inj sev com =>
    obtain ⟨a, rfl⟩ := Option.isSome_iff_exists.mp h1
    obtain ⟨b, rfl⟩ := Option.isSome_iff_exists.mp h2
    obtain ⟨c, rfl⟩ := Option.isSome_iff_exists.mp h3
    obtain ⟨d, rfl⟩ := Option.isSome_iff_exists.mp h4
    obtain ⟨e, rfl⟩ := Option.isSome_iff_exists.mp h5
    rfl

theorem mkRecordTrim_encodeFields (k : String) (v : StatusRecord)
    (h1 : v.status.isSome = true) (h2 : v.injurySite.isSome = true)
    (h3 : v.injury.isSome = true) (h4 : v.severity.isSome = true)
    (h5 : v.comment.isSome = true)
    (htrim : jsTrim (v.comment.getD "") = v.comment.getD "") :
    mkRecordTrim [k, v.status.getD "", v.injurySite.getD "", v.injury.getD "",
      v.severity.getD "", v.comment.getD ""] = v := by
  cases v with
  | mk st si inj sev com =>
    obtain ⟨a, rfl⟩ := Option.isSome_iff_exists.mp h1
    obtain ⟨b, rfl⟩ := Option.isSome_iff_exists.mp h2
    obtain ⟨c, rfl⟩ := Option.isSome_iff_exists.mp h3
    obtain ⟨d, rfl⟩ := Option.isSome_iff_exists.mp h4
    obtain ⟨e, rfl⟩ := Option.isSome_iff_exists.mp h5
    simp only [Option.getD_some] at htrim
    show StatusRecord.mk (some a) (some b) (some c) (some d) (some (jsTrim e))
      = StatusRecord.mk (some a) (some b) (some c) (some d) (some e)
    rw [htrim]

/-! ## Claim theorems -/

/-- C3 (corrected): the round-trip law `decode(encode(m)) == m` holds for the
log codec provided not only the field values but also the keys are free of
commas and newlines, every field is a defined string, and — for the decoder of
src/functions/injury-log.js, which trims the comment — the comment values are
trim-stable.  The claim as stated, which constrains only the field values,
fails on a key containing a comma (see the counterexample). -/
theorem injuryLog_roundTrip (m : Log)
    (hnodup : (m.map Prod.fst).Nodup)
    (hkey : ∀ p ∈ m, p.1 ≠ "" ∧ ',' ∉ p.1.toList ∧ '\n' ∉ p.1.toList)
    (hval : ∀ p ∈ m, ∀ f ∈ [p.2.status, p.2.injurySite, p.2.injury,
        p.2.severity, p.2.comment],
      f.isSome = true ∧ ',' ∉ (f.getD "").toList ∧ '\n' ∉ (f.getD "").toList) :
    parseInjuryLog (encodeLog m) = m ∧
      ((∀ p ∈ m, jsTrim (p.2.comment.getD "") = p.2.comment.getD "") →
        parseInjuryLogFn (encodeLog m) = m) := by
  have hnl : ∀ p ∈ m, '\n' ∉ (encodeRow p.1 p.2).toList := by
    intro p hp
    exact nl_not_mem_encodeRow p.1 p.2 (hkey p hp).2.2
      (hval p hp _ (by simp)).2.2 (hval p hp _ (by simp)).2.2
      (hval p hp _ (by simp)).2.2 (hval p hp _ (by simp)).2.2
      (hval p hp _ (by simp)).2.2
  have hrow : ∀ p ∈ m, jsSplit ',' (encodeRow p.1 p.2)
      = [p.1, p.2.status.getD "", p.2.injurySite.getD "", p.2.injury.getD "",
         p.2.severity.getD "", p.2.comment.getD ""] := by
    intro p hp
    exact jsSplit_encodeRow p.1 p.2 (hkey p hp).2.1
      (hval p hp _ (by simp)).2.1 (hval p hp _ (by simp)).2.1
      (hval p hp _ (by simp)).2.1 (hval p hp _ (by simp)).2.1
      (hval p hp _ (by simp)).2.1
  constructor
  · show parseLogWith mkRecord (encodeLog m) = m
    refine parse_encode_core mkRecord m hnl (fun p hp => ?_) hnodup
    rw [hrow p hp]
    refine ⟨rfl, (hkey p hp).1, ?_⟩
    exact mkRecord_encodeFields p.1 p.2
      (hval p hp _ (by simp)).1 (hval p hp _ (by simp)).1
      (hval p hp _ (by simp)).1 (hval p hp _ (by simp)).1
      (hval p hp _ (by simp)).1
  · intro htrim
    show parseLogWith mkRecordTrim (encodeLog m) = m
    refine parse_encode_core mkRecordTrim m hnl (fun p hp => ?_) hnodup
    rw [hrow p hp]
    refine ⟨rfl, (hkey p hp).1, ?_⟩
    exact mkRecordTrim_encodeFields p.1 p.2
      (hval p hp _ (by simp)).1 (hval p hp _ (by simp)).1
      (hval p hp _ (by simp)).1 (hval p hp _ (by simp)).1
      (hval p hp _ (by simp)).1 (htrim p hp)

/-- C3 witness: the round-trip theorem applied to a concrete one-entry
mapping, with every hypothesis checked by evaluation. -/
theorem injuryLog_roundTrip_witness :
    ((sampleLog.map Prod.fst).Nodup
      ∧ (∀ p ∈ sampleLog, p.1 ≠ "" ∧ ',' ∉ p.1.toList ∧ '\n' ∉ p.1.toList)
      ∧ (∀ p ∈ sampleLog, ∀ f ∈ [p.2.status, p.2.injurySite, p.2.injury,
          p.2.severity, p.2.comment],
        f.isSome = true ∧ ',' ∉ (f.getD "").toList ∧ '\n' ∉ (f.getD "").toList)
      ∧ (∀ p ∈ sampleLog, jsTrim (p.2.comment.getD "") = p.2.comment.getD ""))
    ∧ parseInjuryLog (encodeLog sampleLog) = sampleLog
    ∧ parseInjuryLogFn (encodeLog sampleLog) = sampleLog := by
  refine ⟨⟨by decide, by decide, by decide, by decide⟩, ?_, ?_⟩
  · exact (injuryLog_roundTrip sampleLog (by decide) (by decide) (by decide)).1
  · exact (injuryLog_roundTrip sampleLog (by decide) (by decide) (by decide)).2
      (by decide)

/-- C3 counterexample: a mapping whose key is non-empty and whose field values
contain no comma and no newline, yet decoding its encoding does not return it:
the comma inside the key shifts every field. -/
theorem roundTrip_fails_comma_key :
    ("a,b" : String) ≠ ""
    ∧ ',' ∉ ("" : String).toList
    ∧ parseInjuryLog (encodeLog commaKeyLog) ≠ commaKeyLog
    ∧ parseInjuryLog (encodeLog commaKeyLog)
        = [("a", ⟨some "b", some "", some "", some "", some ""⟩)] := by decide

/-- C4 (confirmed): carry-forward is idempotent — running `project` a second
time for the same roster and date on the log produced by the first run returns
that log unchanged and reports that no update was made. -/
theorem project_idempotent (fmt : Int → String) (log : Log) (roster : List String)
    (asOf : Int) :
    project fmt (project fmt log roster asOf).1 roster asOf
      = ((project fmt log roster asOf).1, false) := by
  unfold project
  exact foldl_projectStep_skip fmt asOf roster _ false
    (fun a ha => foldl_projectStep_all_present fmt asOf roster (log, false) a ha)

/-- C1 (corrected): the backward scan of carry-forward covers `asOfDate` down
to `asOfDate - 364` inclusive (365 dates).  A record dated exactly 364 days
before `asOfDate`, with no record on any later date up to and including
`asOfDate` and tomorrow not yet populated, is found and the entire record is
copied into `(subject, asOfDate + 1)`; a record dated 365 days before
`asOfDate` is not found and the default is synthesized instead.  The claim as
stated places the boundary at 365/366 days and fails on the code. -/
theorem carryForward_lookback_window (fmt : Int → String) (log log2 : Log)
    (a : String) (asOf : Int) (r r2 : StatusRecord) :
    ((objGet log (mkKey a fmt (asOf - 364)) = some r) →
      (∀ i : Nat, i < 364 → objGet log (mkKey a fmt (asOf - i)) = none) →
      objGet log (mkKey a fmt (asOf + 1)) = none →
      project fmt log [a] asOf = (objSet log (mkKey a fmt (asOf + 1)) r, true))
    ∧ ((objGet log2 (mkKey a fmt (asOf - 365)) = some r2) →
      (∀ i : Nat, i < 365 → objGet log2 (mkKey a fmt (asOf - i)) = none) →
      objGet log2 (mkKey a fmt (asOf + 1)) = none →
      project fmt log2 [a] asOf
        = (objSet log2 (mkKey a fmt (asOf + 1)) defaultCarry, true)) := by
  constructor
  · intro h364 hnone htarget
    rw [project_single fmt log a asOf htarget]
    have hlb : lookbackAux fmt log a asOf 365 = r := by
      refine lookbackAux_finds fmt log a r 364 365 asOf (by omega)
        (fun i hi => hnone i hi) ?_
      simpa using h364
    rw [hlb]
  · intro h365 hnone htarget
    rw [project_single fmt log2 a asOf htarget]
    rw [lookbackAux_default fmt log2 a 365 asOf (fun i hi => hnone i hi)]

/-- C1 witness: the amended boundary theorem applied to two concrete
one-record logs around day 20000, every hypothesis checked by evaluation. -/
theorem carryForward_lookback_window_witness :
    (objGet log364 (mkKey "A" toYYYYMMDD (20000 - 364)) = some recInj
      ∧ (∀ i : Nat, i < 364 → objGet log364 (mkKey "A" toYYYYMMDD (20000 - i)) = none)
      ∧ objGet log364 (mkKey "A" toYYYYMMDD (20000 + 1)) = none
      ∧ project toYYYYMMDD log364 ["A"] 20000
          = (objSet log364 (mkKey "A" toYYYYMMDD (20000 + 1)) recInj, true))
    ∧ (objGet log365 (mkKey "A" toYYYYMMDD (20000 - 365)) = some recInj
      ∧ (∀ i : Nat, i < 365 → objGet log365 (mkKey "A" toYYYYMMDD (20000 - i)) = none)
      ∧ objGet log365 (mkKey "A" toYYYYMMDD (20000 + 1)) = none
      ∧ project toYYYYMMDD log365 ["A"] 20000
          = (objSet log365 (mkKey "A" toYYYYMMDD (20000 + 1)) defaultCarry, true)) := by
  refine ⟨⟨by decide, by decide, by decide, ?_⟩, ⟨by decide, by decide, by decide, ?_⟩⟩
  · exact (carryForward_lookback_window toYYYYMMDD log364 log365 "A" 20000
      recInj recInj).1 (by decide) (by decide) (by decide)
  · exact (carryForward_lookback_window toYYYYMMDD log364 log365 "A" 20000
      recInj recInj).2 (by decide) (by decide) (by decide)

/-- C1 counterexample: a log whose only record for subject A is dated exactly
365 days before `asOfDate` (day 20000).  Carry-forward does not find it: the
default record, which differs from the stored one, is written to the target
date — refuting the claim that a record 365 days back is found and copied. -/
theorem lookback_misses_365_days_before :
    project toYYYYMMDD log365 ["A"] 20000
      = (log365 ++ [(mkKey "A" toYYYYMMDD 20001, defaultCarry)], true)
    ∧ defaultCarry ≠ recInj := by decide

/-- C6 (corrected): for a subject with no record anywhere in the 365-date
lookback window, carry-forward assigns the default record: its status is
`Available`, while `injurySite`, `injury`, `severity` and `comment` are left
`undefined` by src/scripts/update-log.js (the claim says empty strings; the
older embedded nightly script does use literal empty strings).  The
`undefined` fields serialize as empty strings when the row is encoded. -/
theorem carryForward_default_available (fmt : Int → String) (log : Log)
    (a : String) (asOf : Int)
    (hnone : ∀ i : Nat, i < 365 → objGet log (mkKey a fmt (asOf - i)) = none)
    (htarget : objGet log (mkKey a fmt (asOf + 1)) = none) :
    project fmt log [a] asOf
      = (objSet log (mkKey a fmt (asOf + 1)) defaultCarry, true)
    ∧ defaultCarry.status = some "Available"
    ∧ defaultCarry.injurySite = none ∧ defaultCarry.injury = none
    ∧ defaultCarry.severity = none ∧ defaultCarry.comment = none
    ∧ encodeRow (mkKey a fmt (asOf + 1)) defaultCarry
        = jsJoin ',' [mkKey a fmt (asOf + 1), "Available", "", "", "", ""] := by
  refine ⟨?_, rfl, rfl, rfl, rfl, rfl, rfl⟩
  rw [project_single fmt log a asOf htarget,
    lookbackAux_default fmt log a 365 asOf (fun i hi => hnone i hi)]

/-- C6 witness: the default-record theorem applied to the empty log (a subject
with zero history) at day 20000. -/
theorem carryForward_default_available_witness :
    ((∀ i : Nat, i < 365 → objGet ([] : Log) (mkKey "A" toYYYYMMDD (20000 - i)) = none)
      ∧ objGet ([] : Log) (mkKey "A" toYYYYMMDD (20000 + 1)) = none)
    ∧ project toYYYYMMDD [] ["A"] 20000
        = (objSet [] (mkKey "A" toYYYYMMDD (20000 + 1)) defaultCarry, true) := by
  refine ⟨⟨by decide, by decide⟩, ?_⟩
  exact (carryForward_default_available toYYYYMMDD [] "A" 20000
    (by decide) (by decide)).1

/-- C6 counterexample: the record that carry-forward assigns to a subject with
zero history has `undefined` (not the empty string) in every non-status field,
so it differs from the record the claim describes. -/
theorem default_fields_not_empty_string :
    project toYYYYMMDD [] ["A"] 20000
      = ([(mkKey "A" toYYYYMMDD 20001, defaultCarry)], true)
    ∧ defaultCarry.injurySite ≠ some ""
    ∧ defaultCarry.comment ≠ some ""
    ∧ (⟨some "Available", some "", some "", some "", some ""⟩ : StatusRecord)
        ≠ defaultCarry := by decide

/-- C7 (corrected): a non-blank data line with a non-empty key and fewer than
six comma-delimited fields decodes to a record in which the absent trailing
fields stay `undefined` — only the comment field is defaulted to the empty
string.  The claim as stated (every missing field becomes the empty string)
fails on the code for the non-comment fields. -/
theorem decode_short_line (fs : List String)
    (h0 : fs ≠ []) (h6 : fs.length < 6)
    (hnc : ∀ f ∈ fs, ',' ∉ f.toList ∧ '\n' ∉ f.toList)
    (hkey : (fs[0]?).getD "" ≠ "")
    (hnb : isBlank (jsJoin ',' fs) = false) :
    parseInjuryLog (jsJoin '\n' [headerLine, jsJoin ',' fs])
      = [((fs[0]?).getD "", mkRecord fs)]
    ∧ (mkRecord fs).comment = some ""
    ∧ (fs.length ≤ 1 → (mkRecord fs).status = none)
    ∧ (fs.length ≤ 2 → (mkRecord fs).injurySite = none)
    ∧ (fs.length ≤ 3 → (mkRecord fs).injury = none)
    ∧ (fs.length ≤ 4 → (mkRecord fs).severity = none) := by
  have h5none : fs[5]? = none := List.getElem?_eq_none (by omega)
  refine ⟨?_, ?_, ?_, ?_, ?_, ?_⟩
  · have hline : '\n' ∉ (jsJoin ',' fs).toList := by
      intro hm
      rcases mem_toList_jsJoin ',' fs '\n' hm with h | ⟨x, hx, hcx⟩
      · exact absurd h (by decide)
      · exact (hnc x hx).2 hcx
    have hsplit : jsSplit '\n' (jsJoin '\n' [headerLine, jsJoin ',' fs])
        = [headerLine, jsJoin ',' fs] := by
      refine jsSplit_jsJoin '\n' _ (by simp) ?_
      intro x hx
      rcases List.mem_cons.mp hx with rfl | hx'
      · decide
      · rcases List.mem_cons.mp hx' with rfl | hx''
        · exact hline
        · exact absurd hx'' (List.not_mem_nil x)
    show parseLogWith mkRecord (jsJoin '\n' [headerLine, jsJoin ',' fs])
      = [((fs[0]?).getD "", mkRecord fs)]
    unfold parseLogWith
    rw [hsplit]
    have hfilter : List.filter (fun l => !(isBlank l)) [headerLine, jsJoin ',' fs]
        = [headerLine, jsJoin ',' fs] := by
      rw [List.filter_eq_self]
      intro x hx
      rcases List.mem_cons.mp hx with rfl | hx'
      · decide
      · rcases List.mem_cons.mp hx' with rfl | hx''
        · rw [hnb]; rfl
        · exact absurd hx'' (List.not_mem_nil x)
    rw [hfilter, if_neg (by simp)]
    rw [List.drop_one, List.tail_cons, List.foldl_cons, List.foldl_nil]
    rw [parseLine_eq,
      jsSplit_jsJoin ',' fs h0 (fun f hf => (hnc f hf).1), if_pos hkey]
    rfl
  · show some ((fs[5]?).getD "") = some ""
    rw [h5none]
    rfl
  · intro h
    show fs[1]? = none
    exact List.getElem?_eq_none h
  · intro h
    show fs[2]? = none
    exact List.getElem?_eq_none h
  · intro h
    show fs[3]? = none
    exact List.getElem?_eq_none h
  · intro h
    show fs[4]? = none
    exact List.getElem?_eq_none h

/-- C7 witness: the short-line theorem applied to a concrete two-field line. -/
theorem decode_short_line_witness :
    ((["A-2024-01-01", "Injured"] : List String) ≠ []
      ∧ (["A-2024-01-01", "Injured"] : List String).length < 6
      ∧ (∀ f ∈ (["A-2024-01-01", "Injured"] : List String),
          ',' ∉ f.toList ∧ '\n' ∉ f.toList)
      ∧ (((["A-2024-01-01", "Injured"] : List String)[0]?).getD "") ≠ ""
      ∧ isBlank (jsJoin ',' ["A-2024-01-01", "Injured"]) = false)
    ∧ parseInjuryLog (jsJoin '\n' [headerLine, jsJoin ',' ["A-2024-01-01", "Injured"]])
        = [(((["A-2024-01-01", "Injured"] : List String)[0]?).getD "",
            mkRecord ["A-2024-01-01", "Injured"])]
    ∧ (mkRecord ["A-2024-01-01", "Injured"]).comment = some "" := by
  refine ⟨⟨by decide, by decide, by decide, by decide, by decide⟩, ?_, ?_⟩
  · exact (decode_short_line ["A-2024-01-01", "Injured"]
      (by decide) (by decide) (by decide) (by decide) (by decide)).1
  · exact (decode_short_line ["A-2024-01-01", "Injured"]
      (by decide) (by decide) (by decide) (by decide) (by decide)).2.1

/-- C7 counterexample: decoding a two-field data line yields `undefined` for
`injurySite`, `injury` and `severity`, not the empty string; only the comment
is defaulted to the empty string. -/
theorem decode_missing_fields_undefined :
    parseInjuryLog "key,status,injurySite,injury,severity,comment\nA-2024-01-01,Injured"
      = [("A-2024-01-01", ⟨some "Injured", none, none, none, some ""⟩)]
    ∧ (⟨some "Injured", none, none, none, some ""⟩ : StatusRecord).injurySite
        ≠ some ""
    ∧ parseInjuryLog "key,status,injurySite,injury,severity,comment\nA-2024-01-01,Injured"
        ≠ [("A-2024-01-01", ⟨some "Injured", some "", some "", some "", some ""⟩)] := by
  decide

/-- C2 (code_bug): the `deletePlayer` handler prunes log entries with
`key.startsWith(name)` — a textual check on the raw composite key.  Removing
subject `Al` therefore also deletes the entry of subject `Alice`, whose key
decomposes to the different subject `Alice`; the specification requires an
exact match on the subject component and names this very scenario. -/
theorem deletePlayer_removes_other_subject :
    deleteFromLog "Al" [("Alice-2024-01-01", recInj)] = []
    ∧ ("Alice" ++ "-" ++ "2024-01-01" : String) = "Alice-2024-01-01"
    ∧ ("Alice" : String) ≠ "Al" := by decide

/-- C5 (confirmed): each commit writes through the compare-and-swap adapter
with exactly the version token observed at its preceding read; a stale token
yields a conflict error that is returned to the caller with no internal retry,
and the committed blob is exactly what it was before the failed attempt.  In
the two-sequential-writers scenario the second writer, holding the stale
token, fails and the stored content remains the first writer's commit. -/
theorem commit_conflict_surfaced (b current : Blob)
    (p1 p2 : List (String × StatusRecord)) :
    commitBatch b b p1
        = Except.ok ⟨mergeContent b.content p1, b.version + 1⟩
    ∧ (current.version ≠ b.version →
        commitBatch b current p2 = Except.error ()
        ∧ stateAfter current (commitBatch b current p2) = current)
    ∧ stateAfter (stateAfter b (commitBatch b b p1))
        (commitBatch b (stateAfter b (commitBatch b b p1)) p2)
        = ⟨mergeContent b.content p1, b.version + 1⟩ := by
  have h1 : commitBatch b b p1
      = Except.ok ⟨mergeContent b.content p1, b.version + 1⟩ := by
    unfold commitBatch putBlob
    rw [if_pos rfl]
  refine ⟨h1, fun h => ?_, ?_⟩
  · have hne : ¬ (b.version = current.version) := fun hh => h hh.symm
    constructor
    · unfold commitBatch putBlob
      rw [if_neg hne]
    · show stateAfter current (commitBatch b current p2) = current
      unfold commitBatch putBlob
      rw [if_neg hne]
      rfl
  · rw [h1]
    show stateAfter _
      (commitBatch b ⟨mergeContent b.content p1, b.version + 1⟩ p2) = _
    unfold commitBatch putBlob
    rw [if_neg (show ¬ (b.version = b.version + 1) by omega)]
    rfl

/-- C5 witness: the conflict theorem applied to a concrete stale-token write:
the observed blob has version 0, the store has moved to version 5, the write
fails and the stored blob is untouched. -/
theorem commit_conflict_surfaced_witness :
    ((⟨"x", 5⟩ : Blob).version ≠ (⟨"", 0⟩ : Blob).version)
    ∧ commitBatch ⟨"", 0⟩ ⟨"x", 5⟩ [] = Except.error ()
    ∧ stateAfter ⟨"x", 5⟩ (commitBatch ⟨"", 0⟩ ⟨"x", 5⟩ []) = ⟨"x", 5⟩ := by
  refine ⟨by decide, ?_, ?_⟩
  · exact ((commit_conflict_surfaced ⟨"", 0⟩ ⟨"x", 5⟩ [] []).2.1 (by decide)).1
  · exact ((commit_conflict_surfaced ⟨"", 0⟩ ⟨"x", 5⟩ [] []).2.1 (by decide)).2

theorem batch_presence (payload : List (String × StatusRecord)) :
    ∀ (log : Log) (q : String), (objGet log q).isSome = true →
      (objGet (batchUpdateLog log payload) q).isSome = true := by
  induction payload with
  | nil => intro log q h; simpa [batchUpdateLog] using h
  | cons item rest ih =>
    intro log q h
    show (objGet (batchUpdateLog (objSet log item.1 item.2) rest) q).isSome = true
    exact ih _ q (isSome_objGet_objSet log item.1 q item.2 h)

/-- C8 (confirmed): every log-mutating operation other than subject removal —
single-record update, batch merge, and carry-forward — preserves the presence
of every composite key already in the log. -/
theorem log_keys_monotone (log : Log) (q : String)
    (h : (objGet log q).isSome = true) :
    (∀ key data, (objGet (updateLogOp log key data) q).isSome = true)
    ∧ (∀ payload, (objGet (batchUpdateLog log payload) q).isSome = true)
    ∧ (∀ fmt roster asOf,
        (objGet (project fmt log roster asOf).1 q).isSome = true) := by
  refine ⟨fun key data => ?_, fun payload => ?_, fun fmt roster asOf => ?_⟩
  · exact isSome_objGet_objSet log key q data h
  · exact batch_presence payload log q h
  · exact foldl_projectStep_presence fmt asOf roster (log, false) q h

/-- C8 witness: the monotonicity theorem applied to a concrete one-entry log
and one concrete instance of each of the three operations. -/
theorem log_keys_monotone_witness :
    ((objGet sampleLog "Alice-2024-01-02").isSome = true)
    ∧ (objGet (updateLogOp sampleLog "B-2024-01-02" defaultCarry)
        "Alice-2024-01-02").isSome = true
    ∧ (objGet (batchUpdateLog sampleLog [("C-2024-01-02", defaultCarry)])
        "Alice-2024-01-02").isSome = true
    ∧ (objGet (project toYYYYMMDD sampleLog ["A"] 20000).1
        "Alice-2024-01-02").isSome = true := by
  refine ⟨by decide, ?_, ?_, ?_⟩
  · exact (log_keys_monotone sampleLog _ (by decide)).1 "B-2024-01-02" defaultCarry
  · exact (log_keys_monotone sampleLog _ (by decide)).2.1
      [("C-2024-01-02", defaultCarry)]
  · exact (log_keys_monotone sampleLog _ (by decide)).2.2 toYYYYMMDD ["A"] 20000

theorem parseLogWith_eq (mk : List String → StatusRecord) (csvText : String) :
    parseLogWith mk csvText =
      if ((jsSplit '\n' csvText).filter (fun l => !(isBlank l))).length ≤ 1 then []
      else (((jsSplit '\n' csvText).filter (fun l => !(isBlank l))).drop 1).foldl
        (parseLine mk) [] := rfl

theorem nodup_keys_foldl_parseLine (mk : List String → StatusRecord)
    (lines : List String) :
    ∀ acc : Log, (acc.map Prod.fst).Nodup →
      ((lines.foldl (parseLine mk) acc).map Prod.fst).Nodup := by
  induction lines with
  | nil => intro acc h; simpa using h
  | cons l rest ih =>
    intro acc h
    rw [List.foldl_cons]
    apply ih
    rw [parseLine_eq]
    by_cases hkey : ((jsSplit ',' l)[0]?).getD "" ≠ ""
    · rw [if_pos hkey]
      exact nodup_keys_objSet acc _ _ h
    · rw [if_neg hkey]
      exact h

theorem objGet_foldl_parseLine (mk : List String → StatusRecord)
    (fss : List (List String)) :
    ∀ (acc : Log) (k : String), k ≠ "" →
      (∀ fs ∈ fss, fs ≠ [] ∧ (∀ f ∈ fs, ',' ∉ f.toList)) →
      objGet ((fss.map (jsJoin ',')).foldl (parseLine mk) acc) k
        = ((fss.reverse.find? (fun fs => (fs[0]?).getD "" == k)).map mk).or
            (objGet acc k) := by
  induction fss with
  | nil => intro acc k hk _; simp
  | cons fs rest ih =>
    intro acc k hk hcond
    rw [List.map_cons, List.foldl_cons,
      ih (parseLine mk acc (jsJoin ',' fs)) k hk
        (fun g hg => hcond g (List.mem_cons_of_mem _ hg)),
      List.reverse_cons, List.find?_append]
    cases hfind : rest.reverse.find? (fun g => (g[0]?).getD "" == k) with
    | some g => simp
    | none =>
      simp only [Option.map_none', Option.none_or]
      rw [parseLine_eq,
        jsSplit_jsJoin ',' fs (hcond fs (List.mem_cons_self fs rest)).1
          (fun f hf => (hcond fs (List.mem_cons_self fs rest)).2 f hf)]
      by_cases hkey : (fs[0]?).getD "" = ""
      · rw [if_neg (not_not_intro hkey)]
        have hpred : ((fs[0]?).getD "" == k) = false := by
          rw [hkey]
          exact beqF (fun hh => hk hh.symm)
        rw [List.find?_cons_of_neg _ (by simp [hpred]), List.find?_nil]
        rfl
      · rw [if_pos hkey, objGet_objSet]
        by_cases hkk : k = (fs[0]?).getD ""
        · rw [if_pos hkk]
          have hpred : ((fs[0]?).getD "" == k) = true := beqT hkk.symm
          rw [List.find?_cons_of_pos _ (by simp [hpred])]
          rfl
        · rw [if_neg hkk]
          have hpred : ((fs[0]?).getD "" == k) = false :=
            beqF (fun hh => hkk hh.symm)
          rw [List.find?_cons_of_neg _ (by simp [hpred]), List.find?_nil]
          rfl

/-- C9 (confirmed): decode never produces two entries with the same key — its
key list is always duplicate-free — and when several data lines share the same
non-empty key, the record kept for that key is the one from the last such line
in input order (later lines overwrite earlier ones in place). -/
theorem decode_duplicate_last_wins :
    (∀ raw : String, ((parseInjuryLog raw).map Prod.fst).Nodup)
    ∧ (∀ (fss : List (List String)) (k : String), k ≠ "" →
        (∀ fs ∈ fss, fs ≠ [] ∧ (∀ f ∈ fs, ',' ∉ f.toList ∧ '\n' ∉ f.toList)
          ∧ isBlank (jsJoin ',' fs) = false) →
        objGet (parseInjuryLog (jsJoin '\n' (headerLine :: fss.map (jsJoin ','))))
            k
          = (fss.reverse.find? (fun fs => (fs[0]?).getD "" == k)).map mkRecord) := by
  constructor
  · intro raw
    show ((parseLogWith mkRecord raw).map Prod.fst).Nodup
    rw [parseLogWith_eq]
    by_cases hlen : ((jsSplit '\n' raw).filter (fun l => !(isBlank l))).length ≤ 1
    · rw [if_pos hlen]; simp
    · rw [if_neg hlen]
      exact nodup_keys_foldl_parseLine mkRecord _ [] (by simp)
  · intro fss k hk hcond
    cases fss with
    | nil =>
      show objGet (parseLogWith mkRecord (jsJoin '\n' [headerLine])) k = _
      rw [parseLogWith_eq, jsJoin_singleton,
        jsSplit_eq_single '\n' headerLine (by decide),
        show List.filter (fun l => !(isBlank l)) [headerLine] = [headerLine]
          from by decide,
        if_pos (by simp)]
      rfl
    | cons g t =>
      have hrows : ∀ x ∈ (g :: t).map (jsJoin ','), '\n' ∉ x.toList := by
        intro x hx
        rcases List.mem_map.mp hx with ⟨fs, hfs, rfl⟩
        intro hm
        rcases mem_toList_jsJoin ',' fs '\n' hm with h | ⟨f, hf, hcf⟩
        · exact absurd h (by decide)
        · exact ((hcond fs hfs).2.1 f hf).2 hcf
      have hsplit :
          jsSplit '\n' (jsJoin '\n' (headerLine :: (g :: t).map (jsJoin ',')))
            = headerLine :: (g :: t).map (jsJoin ',') := by
        refine jsSplit_jsJoin '\n' _ (by simp) ?_
        intro x hx
        rcases List.mem_cons.mp hx with rfl | hx'
        · decide
        · exact hrows x hx'
      have hfilter :
          List.filter (fun l => !(isBlank l))
              (headerLine :: (g :: t).map (jsJoin ','))
            = headerLine :: (g :: t).map (jsJoin ',') := by
        rw [List.filter_eq_self]
        intro x hx
        rcases List.mem_cons.mp hx with rfl | hx'
        · decide
        · rcases List.mem_map.mp hx' with ⟨fs, hfs, rfl⟩
          rw [(hcond fs hfs).2.2]
          rfl
      show objGet (parseLogWith mkRecord
        (jsJoin '\n' (headerLine :: (g :: t).map (jsJoin ',')))) k = _
      rw [parseLogWith_eq, hsplit, hfilter, if_neg (by simp),
        List.drop_one, List.tail_cons,
        objGet_foldl_parseLine mkRecord (g :: t) [] k hk
          (fun fs hfs => ⟨(hcond fs hfs).1,
            fun f hf => ((hcond fs hfs).2.1 f hf).1⟩)]
      rw [show objGet ([] : Log) k = none from rfl, Option.or_none]

/-- C9 witness: three concrete data lines, the first and last sharing key
`A-2024-01-01`; decode keeps the record of the last one. -/
theorem decode_duplicate_last_wins_witness :
    (("A-2024-01-01" : String) ≠ ""
      ∧ (∀ fs ∈ fssEx, fs ≠ [] ∧ (∀ f ∈ fs, ',' ∉ f.toList ∧ '\n' ∉ f.toList)
          ∧ isBlank (jsJoin ',' fs) = false))
    ∧ objGet (parseInjuryLog (jsJoin '\n' (headerLine :: fssEx.map (jsJoin ','))))
        "A-2024-01-01"
      = (fssEx.reverse.find? (fun fs => (fs[0]?).getD "" == "A-2024-01-01")).map
          mkRecord
    ∧ (fssEx.reverse.find? (fun fs => (fs[0]?).getD "" == "A-2024-01-01")).map
          mkRecord
        = some (mkRecord ["A-2024-01-01", "Available"]) := by
  refine ⟨⟨by decide, by decide⟩, ?_, by decide⟩
  exact decode_duplicate_last_wins.2 fssEx "A-2024-01-01" (by decide) (by decide)

theorem mem_dedupAux (x : String) :
    ∀ (seen l : List String), x ∈ dedupAux seen l → x ∈ l := by
  intro seen l
  induction l generalizing seen with
  | nil =>
    intro h
    rw [dedupAux] at h
    exact h
  | cons y ys ih =>
    intro h
    rw [dedupAux] at h
    by_cases hy : y ∈ seen
    · rw [if_pos hy] at h
      exact List.mem_cons_of_mem _ (ih _ h)
    · rw [if_neg hy] at h
      rcases List.mem_cons.mp h with rfl | h'
      · exact List.mem_cons_self _ _
      · exact List.mem_cons_of_mem _ (ih _ h')

theorem parseAppConfig_statuses (csvText : String) :
    (parseAppConfig csvText).statuses
      = jsSetDedup ((catalogue (configHeaders csvText) (configRows csvText)
          "Status").filter (fun s => s ≠ "Pending")) := rfl

/-- C10 (confirmed): the statuses catalogue of the configuration object never
holds the value `Pending`, whatever the configuration file contains — the
parser filters it out — while the colour map may still hold a `Pending` entry,
as the concrete configuration with a Pending status row shows. -/
theorem appConfig_no_pending :
    (∀ csvText : String,
      ((parseAppConfig csvText).statuses.contains "Pending") = false)
    ∧ objGet (parseAppConfig cfgEx).colorMap "Pending" = some "#FF0000" := by
  constructor
  · intro csvText
    have hmem : "Pending" ∉ (parseAppConfig csvText).statuses := by
      rw [parseAppConfig_statuses]
      intro h
      have h1 := mem_dedupAux "Pending" [] _ h
      have h2 := (List.mem_filter.mp h1).2
      simp at h2
    simpa using hmem
  · decide

end InjuryTracker
